import Mathlib

/-!
Shallow embedding of `allspeak/utils.py` (locale/timezone negotiation helpers
and the pluralization lookup), together with theorems settling the claims of
the specification against the code.

Python strings are modelled as lists of Unicode code points (`List Nat`);
the module only manipulates ASCII data, and every case-mapping helper below
embeds Python's behaviour on the ASCII range.  Python dictionaries are
modelled as association lists (first match wins, as keys are unique in the
dict literals involved).  A Python function that can raise is embedded with
an `Except Unit` result.
-/

set_option autoImplicit false

universe u v

/-- A Python string, as its list of code points. -/
abbrev Str := List Nat

/-- Code points of a Lean string literal, for writing concrete Python strings. -/
def strCodes (s : String) : Str := s.data.map Char.toNat

/-- ASCII lower-casing of one code point (`str.lower` on ASCII data). -/
def lowerC (c : Nat) : Nat := if 65 ≤ c ∧ c ≤ 90 then c + 32 else c

/-- ASCII upper-casing of one code point (`str.upper` on ASCII data). -/
def upperC (c : Nat) : Nat := if 97 ≤ c ∧ c ≤ 122 then c - 32 else c

/-- `s.lower()` on ASCII data. -/
def pyLower (s : Str) : Str := s.map lowerC

/-- `s.upper()` on ASCII data. -/
def pyUpper (s : Str) : Str := s.map upperC

/-- `s.replace(a, b)` for single-character `a`, `b`. -/
def pyReplace (a b : Nat) (s : Str) : Str := s.map fun c => if c = a then b else c

/-- ASCII whitespace, as stripped by `str.strip()`. -/
def isSpaceC (c : Nat) : Bool := c = 32 || c = 9 || c = 10 || c = 13 || c = 11 || c = 12

/-- `s.strip()`: drop whitespace from both ends. -/
def pyStrip (s : Str) : Str :=
  ((s.dropWhile isSpaceC).reverse.dropWhile isSpaceC).reverse

/-- `s.split(sep)` for a single-character separator: splits at every
occurrence, keeping empty parts; the result is never empty. -/
def pySplit (sep : Nat) : Str → List Str
  | [] => [[]]
  | c :: rest =>
    match pySplit sep rest with
    | [] => [[]]
    | h :: t => if c = sep then [] :: h :: t else (c :: h) :: t

/-- `"_".join(parts)`. -/
def joinUnderscore : List Str → Str
  | [] => []
  | [x] => x
  | x :: y :: r => x ++ 95 :: joinUnderscore (y :: r)

/-- Upper-case the last part of a non-empty list of parts
(`tloc[-1] = tloc[-1].upper()`). -/
def upLastStr : List Str → List Str
  | [] => []
  | [x] => [pyUpper x]
  | x :: y :: r => x :: upLastStr (y :: r)

/-- `split_locale` on the string branch:
`locale = locale.replace('-', '_').lower(); tloc = locale.split('_');
if len(tloc) > 1: tloc[-1] = tloc[-1].upper()`. -/
def split_locale_str (s : Str) : List Str :=
  let t := pySplit 95 (pyLower (pyReplace 45 95 s))
  match t with
  | [] => []
  | [x] => [x]
  | x :: y :: r => x :: upLastStr (y :: r)

/-- Code-point lexicographic `<` on Python strings. -/
def strLtB : Str → Str → Bool
  | [], [] => false
  | [], _ :: _ => true
  | _ :: _, [] => false
  | a :: s, b :: t => a < b || (a = b && strLtB s t)

/-- Python's lexicographic `<` on lists of strings. -/
def entryLtB : List Str → List Str → Bool
  | [], [] => false
  | [], _ :: _ => true
  | _ :: _, [] => false
  | a :: s, b :: t => strLtB a b || (a = b && entryLtB s t)

/-- `≤` on entries, as the negation of strict `>`. -/
def entryLeB (x y : List Str) : Bool := ! entryLtB y x

/-- Stable insertion of one element into a sorted list. -/
def insertLe {α : Type u} (le : α → α → Bool) (x : α) : List α → List α
  | [] => [x]
  | y :: ys => if le x y then x :: y :: ys else y :: insertLe le x ys

/-- Stable ascending sort (the behaviour of Python's `sorted`). -/
def insSort {α : Type u} (le : α → α → Bool) : List α → List α
  | [] => []
  | x :: xs => insertLe le x (insSort le xs)

/-- `dict.get(k)` on an association list. -/
def dlookup {κ : Type u} {α : Type v} [DecidableEq κ] (k : κ) : List (κ × α) → Option α
  | [] => none
  | (k', v) :: r => if k' = k then some v else dlookup k r

/-- A key of one of the plural mappings: Python intermixes `int` and `str`
keys in one dictionary. -/
inductive PKey
  | int (n : Int)
  | str (s : Str)
deriving DecidableEq

/-- `dic.get(k, d)` for a plural mapping. -/
def dictGet (dic : List (PKey × Str)) (k : PKey) (d : Str) : Str :=
  (dlookup k dic).getD d

/-- Decimal digits of a natural number, most significant first, by a
fuel-based recursion (`fuel > n` suffices). -/
def natToDecCore (fuel : Nat) (n : Nat) : Str :=
  match fuel with
  | 0 => []
  | f + 1 => if n < 10 then [48 + n] else natToDecCore f (n / 10) ++ [48 + n % 10]

/-- Decimal representation of a natural number. -/
def natToDec (n : Nat) : Str := natToDecCore (n + 1) n

/-- `str(count)` for a Python integer. -/
def intToStr (c : Int) : Str :=
  if c < 0 then 45 :: natToDec c.natAbs else natToDec c.natAbs

/-- The `number_literal_equiv` dictionary from the source, with both its
`int` and its `str` keys. -/
def number_literal_equiv : List (PKey × Str) :=
  [ (.int 0, strCodes "zero"), (.str (strCodes "0"), strCodes "zero"),
    (.int 1, strCodes "one"),  (.str (strCodes "1"), strCodes "one"),
    (.int 2, strCodes "few"),  (.str (strCodes "2"), strCodes "few"),
    (.int 3, strCodes "few"),  (.str (strCodes "3"), strCodes "few") ]

/-- `number_to_literal(number) = number_literal_equiv.get(number, 'many')`. -/
def number_to_literal (k : PKey) : Str :=
  dictGet number_literal_equiv k (strCodes "many")

/-- `pluralize(dic, count)` from the source: `count` may be `None`
(modelled as `Option Int`), and the result is the nested
`dic.get(count, dic.get(scount, dic.get(literal, dic.get('many',
dic.get('n', u'')))))`. -/
def pluralize (dic : List (PKey × Str)) (count : Option Int) : Str :=
  let c := count.getD 0
  let sc := intToStr c
  let literal := number_to_literal (.str sc)
  dictGet dic (.int c) (dictGet dic (.str sc) (dictGet dic (.str literal)
    (dictGet dic (.str (strCodes "many")) (dictGet dic (.str (strCodes "n")) []))))

/-- Modelled from the spec: the fixed bucketing rule
`0 → zero; 1 → one; 2 or 3 → few; anything else → many`, written from the
specification's words for comparison with the code's lookup. -/
def bucketRuleSpec (c : Int) : Str :=
  if c = 0 then strCodes "zero"
  else if c = 1 then strCodes "one"
  else if c = 2 ∨ c = 3 then strCodes "few"
  else strCodes "many"

/-- Resolution by an ordered list of candidate keys: the value of the first
key present in the mapping, else the empty string. -/
def firstHit (dic : List (PKey × Str)) : List PKey → Str
  | [] => []
  | k :: ks =>
    match dlookup k dic with
    | some v => v
    | none => firstHit dic ks

/-- The request object seen by the preferred-locale extractors: a werkzeug
`accept_languages` accessor (its `.values()` list), a webob
`accept_language` iterable, and a django `META` dict; each may be absent. -/
structure Request where
  accept_languages : Option (List Str)
  accept_language : Option (List Str)
  META : Option (List (Str × Str))

/-- The `'HTTP_ACCEPT_LANGUAGE'` key of the django `META` dict. -/
def HTTP_ACCEPT_LANGUAGE : Str := strCodes "HTTP_ACCEPT_LANGUAGE"

/-- Truthiness of an optional list: `None` and the empty list are falsy. -/
def truthyL (x : Option (List Str)) : Bool :=
  match x with
  | some (_ :: _) => true
  | _ => false

/-- Normalize a tag string to joined form: `'_'.join(split_locale(l))`. -/
def joinSplitLocale (l : Str) : Str := joinUnderscore (split_locale_str l)

/-- `get_werkzeug_preferred_locales`: if `accept_languages` is truthy,
join-split each of its values, else (implicitly) return `None`. -/
def get_werkzeug_preferred_locales (request : Request) : Option (List Str) :=
  match request.accept_languages with
  | none => none
  | some langs =>
    if langs = [] then none
    else some (langs.map joinSplitLocale)

/-- `get_webob_preferred_locales`: same shape over `accept_language`. -/
def get_webob_preferred_locales (request : Request) : Option (List Str) :=
  match request.accept_language with
  | none => none
  | some langs =>
    if langs = [] then none
    else some (langs.map joinSplitLocale)

/-- The final comprehension of `get_django_preferred_locales`:
`['_'.join(split_locale(l[1].strip())) for l in languages]`, evaluated left
to right; `l[1]` raises `IndexError` (here `Except.error ()`) whenever the
entry has fewer than two components. -/
def djangoMapEntries : List (List Str) → Except Unit (List Str)
  | [] => .ok []
  | l :: rest =>
    match l.get? 1 with
    | none => .error ()
    | some t =>
      match djangoMapEntries rest with
      | .error e => .error e
      | .ok r => .ok (joinSplitLocale (pyStrip t) :: r)

/-- `get_django_preferred_locales`: manual parsing of the raw
`HTTP_ACCEPT_LANGUAGE` header.  The comprehension indexes `l[1]` on each
reversed `';'`-split entry, which raises `IndexError` when the entry holds
no `';'`; this embedding returns `Except.error ()` there. -/
def get_django_preferred_locales (request : Request) :
    Except Unit (Option (List Str)) :=
  match request.META with
  | none => .ok none
  | some m =>
    if m = [] then .ok none
    else
      match dlookup HTTP_ACCEPT_LANGUAGE m with
      | none => .ok none
      | some header =>
        if header = [] then .ok none
        else
          let languages := (pySplit 44 header).map fun l => (pySplit 59 (pyStrip l)).reverse
          let languages := (insSort entryLeB languages).reverse
          (djangoMapEntries languages).map some

/-- `get_preferred_locales`: the `or`-chain of the three probes, ending in
`[]`; a falsy probe result (`None` or an empty list) falls through. -/
def get_preferred_locales (request : Request) : Except Unit (List Str) :=
  let w := get_werkzeug_preferred_locales request
  if truthyL w then .ok (w.getD [])
  else
    let o := get_webob_preferred_locales request
    if truthyL o then .ok (o.getD [])
    else
      match get_django_preferred_locales request with
      | .error e => .error e
      | .ok d => if truthyL d then .ok (d.getD []) else .ok []

/-- `l.replace('-', '_').lower()`, applied to both preference and candidate
tags before negotiation. -/
def normTag (s : Str) : Str := pyLower (pyReplace 45 95 s)

/-- `negotiate_locale`, parameterized by the external Babel negotiation
algorithm `bn` (`Locale.negotiate` with `sep='_'`). -/
def negotiate_locale (bn : List Str → List Str → Option Str)
    (request : Request) (available_locales : List Str) :
    Except Unit (Option Str) :=
  if available_locales = [] then .ok none
  else
    match get_preferred_locales request with
    | .error e => .error e
    | .ok preferred =>
      if preferred = [] then .ok none
      else .ok (bn (preferred.map normTag) (available_locales.map normTag))

deriving instance DecidableEq for Except

/-- A Python value that may sit in a request's `locale`/`tzinfo` attribute or
in its GET arguments: a string, a Babel `Locale` object, or a
`datetime.tzinfo` object (the latter two of abstract types `L` and `T`). -/
inductive PyVal (L : Type u) (T : Type v)
  | str (s : Str)
  | loc (l : L)
  | tz (t : T)

/-- Python truthiness of such a value: the empty string is falsy,
`Locale` and `tzinfo` objects are always truthy. -/
def pyTruthy {L : Type u} {T : Type v} : PyVal L T → Bool
  | .str s => decide (s ≠ [])
  | .loc _ => true
  | .tz _ => true

/-- Truthiness of `getattr(request, name, None)`. -/
def truthyOpt {L : Type u} {T : Type v} (v : Option (PyVal L T)) : Bool :=
  match v with
  | some x => pyTruthy x
  | none => false

/-- The request object seen by `get_request_locale` / `get_request_timezone`:
`locale` and `tzinfo` attributes, optional `args` and `GET` mappings, and a
stand-in `other` field for every remaining attribute of the object. -/
structure ReqState (α : Type u) (L : Type v) (T : Type v) where
  locale : Option (PyVal L T)
  tzinfo : Option (PyVal L T)
  args : Option (List (Str × PyVal L T))
  GET : Option (List (Str × PyVal L T))
  other : α

/-- `getattr(request, 'args', getattr(request, 'GET', {})).get(key)`. -/
def mget {α : Type u} {L T : Type v} (r : ReqState α L T) (key : Str) :
    Option (PyVal L T) :=
  dlookup key (match r.args with
    | some m => m
    | none => r.GET.getD [])

/-- `normalize_locale`, parameterized by the external Babel `Locale`
constructor `bl` (returning `none` on `UnknownLocaleError`).  A falsy input
yields `None`; a `Locale` instance is returned as is; a string is split and
fed to the constructor; any other value falls through `split_locale`
unchanged, fails the tuple test and yields `None`. -/
def normalize_locale {L T : Type v} (bl : List Str → Option L)
    (locale : Option (PyVal L T)) : Option L :=
  match locale with
  | none => none
  | some v =>
    if ¬ pyTruthy v then none
    else
      match v with
      | .loc l => some l
      | .tz _ => none
      | .str s =>
        match split_locale_str s with
        | [] => none
        | [x] => bl [pyLower x]
        | x :: y :: _ => bl [pyLower x, pyUpper y]

/-- `normalize_timezone`, parameterized by the external
`babel.dates.get_timezone` call `gtz` (returning `none` on `LookupError`).
A falsy input yields `None`; a `tzinfo` instance is returned as is. -/
def normalize_timezone {L T : Type v} (gtz : PyVal L T → Option T)
    (tzinfo : Option (PyVal L T)) : Option T :=
  match tzinfo with
  | none => none
  | some v =>
    if ¬ pyTruthy v then none
    else
      match v with
      | .tz t => some t
      | _ => gtz v

/-- The probe `getattr(request, 'locale', None) or
getattr(request, 'args', getattr(request, 'GET', {})).get('locale')`. -/
def localeProbe {α : Type u} {L T : Type v} (r : ReqState α L T) :
    Option (PyVal L T) :=
  if truthyOpt r.locale then r.locale else mget r (strCodes "locale")

/-- The probe for `'tzinfo'`, the same shape. -/
def tzinfoProbe {α : Type u} {L T : Type v} (r : ReqState α L T) :
    Option (PyVal L T) :=
  if truthyOpt r.tzinfo then r.tzinfo else mget r (strCodes "tzinfo")

/-- `get_request_locale(request, default)`: probe, normalize (`or default`),
store on `request.locale` and return the stored value.  The embedding
returns the mutated request together with the returned value. -/
def get_request_locale {α : Type u} {L T : Type v} (bl : List Str → Option L)
    (r : ReqState α L T) (default : Option L) : ReqState α L T × Option L :=
  let v :=
    match normalize_locale bl (localeProbe r) with
    | some l => some l
    | none => default
  ({ r with locale := v.map PyVal.loc }, v)

/-- `get_request_timezone(request, default)`: the same shape over
`'tzinfo'` and `normalize_timezone`. -/
def get_request_timezone {α : Type u} {L T : Type v}
    (gtz : PyVal L T → Option T) (r : ReqState α L T) (default : Option T) :
    ReqState α L T × Option T :=
  let v :=
    match normalize_timezone gtz (tzinfoProbe r) with
    | some t => some t
    | none => default
  ({ r with tzinfo := v.map PyVal.tz }, v)

/-! ## Arithmetic facts about the decimal representation -/

theorem natToDec_small {n : Nat} (h : n < 10) : natToDec n = [48 + n] := by
  unfold natToDec natToDecCore
  simp [h]

theorem natToDecCore_ne_nil {f n : Nat} (h : 1 ≤ f) : natToDecCore f n ≠ [] := by
  cases f with
  | zero => omega
  | succ f =>
    unfold natToDecCore
    split
    · simp
    · simp

theorem natToDec_length_ge_two {n : Nat} (h : 10 ≤ n) : 2 ≤ (natToDec n).length := by
  unfold natToDec natToDecCore
  rw [if_neg (by omega)]
  rw [List.length_append]
  have hne := natToDecCore_ne_nil (f := n) (n := n / 10) (by omega)
  have hl : 1 ≤ (natToDecCore n (n / 10)).length := List.length_pos.mpr hne
  simp
  omega

/-- The literal selected by `number_to_literal` on `str(count)` is exactly
the bucketing rule stated by the specification. -/
theorem number_to_literal_intToStr (c : Int) :
    number_to_literal (.str (intToStr c)) = bucketRuleSpec c := by
  by_cases h0 : c = 0
  · subst h0; decide
  by_cases h1 : c = 1
  · subst h1; decide
  by_cases h2 : c = 2
  · subst h2; decide
  by_cases h3 : c = 3
  · subst h3; decide
  have hne : ∀ s ∈ [strCodes "0", strCodes "1", strCodes "2", strCodes "3"],
      intToStr c ≠ s := by
    rcases lt_or_ge c 0 with hneg | hpos
    · intro s hs h
      rw [intToStr, if_pos hneg] at h
      fin_cases hs <;> simp [strCodes] at h
    · have hge : 4 ≤ c.natAbs := by omega
      rcases Nat.lt_or_ge c.natAbs 10 with hsmall | hbig
      · intro s hs h
        rw [intToStr, if_neg (by omega), natToDec_small hsmall] at h
        fin_cases hs <;> simp [strCodes] at h <;> omega
      · intro s hs h
        rw [intToStr, if_neg (by omega)] at h
        have := natToDec_length_ge_two hbig
        rw [h] at this
        fin_cases hs <;> simp [strCodes] at this
  have hmiss : dlookup (.str (intToStr c)) number_literal_equiv = none := by
    have g0 := hne (strCodes "0") (by simp)
    have g1 := hne (strCodes "1") (by simp [strCodes])
    have g2 := hne (strCodes "2") (by simp [strCodes])
    have g3 := hne (strCodes "3") (by simp [strCodes])
    simp [number_literal_equiv, dlookup, Ne.symm g0, Ne.symm g1, Ne.symm g2,
      Ne.symm g3]
  rw [number_to_literal, dictGet, hmiss]
  rw [bucketRuleSpec, if_neg h0, if_neg h1, if_neg (by simp [h2, h3])]
  rfl

/-! ## Claim theorems: pluralization -/

/-- C1 (counterexample): for count `0` (bucket `zero`) and a mapping whose
only key is `'many'`, `pluralize` returns the `'many'` value, not the
empty-string default the claim requires. -/
theorem pluralize_many_key_consulted_cex :
    pluralize [(.str (strCodes "many"), strCodes "Many apples")] (some 0) =
        strCodes "Many apples"
      ∧ strCodes "Many apples" ≠ [] := by
  constructor
  · decide
  · decide

/-- C1 (amended): `pluralize` resolves by trying, in order, the count, its
string form, the bucket category of the spec's fixed rule, the `'many'`
key, and the `'n'` key, with the empty string as final default. -/
theorem pluralize_lookup_chain (dic : List (PKey × Str)) (count : Option Int) :
    pluralize dic count =
      firstHit dic
        [ .int (count.getD 0), .str (intToStr (count.getD 0)),
          .str (bucketRuleSpec (count.getD 0)),
          .str (strCodes "many"), .str (strCodes "n") ] := by
  have hchain : ∀ (k : PKey) (ks : List PKey),
      firstHit dic (k :: ks) = dictGet dic k (firstHit dic ks) := by
    intro k ks
    rw [firstHit, dictGet]
    cases dlookup k dic <;> simp
  rw [pluralize, number_to_literal_intToStr]
  rw [hchain, hchain, hchain, hchain, hchain]
  rfl

/-- C6: when neither the exact integer key nor its string form is present,
`pluralize` resolves through the bucket category given by the fixed rule
`0 → zero, 1 → one, 2|3 → few, else many` (a `None` count acting as `0`),
before the `'many'`/`'n'`/empty-string fallbacks. -/
theorem pluralize_bucket_rule (dic : List (PKey × Str)) (count : Option Int)
    (h1 : dlookup (.int (count.getD 0)) dic = none)
    (h2 : dlookup (.str (intToStr (count.getD 0))) dic = none) :
    pluralize dic count =
      dictGet dic (.str (bucketRuleSpec (count.getD 0)))
        (dictGet dic (.str (strCodes "many"))
          (dictGet dic (.str (strCodes "n")) [])) := by
  rw [pluralize, number_to_literal_intToStr]
  rw [dictGet, h1, Option.getD_none, dictGet, h2, Option.getD_none]

/-- C6 (witness): the bucket rule applied at count `3` with a
category-keyed mapping. -/
theorem pluralize_bucket_rule_witness :
    pluralize [(.str (strCodes "few"), strCodes "Few apples")] (some 3) =
      strCodes "Few apples" := by
  rw [pluralize_bucket_rule [(.str (strCodes "few"), strCodes "Few apples")]
    (some 3) (by decide) (by decide)]
  decide

/-! ## Claim theorems: django header parsing bugs -/

/-- C2: on the specification's own example header
`"fr;q=0.5,en;q=0.9,de"`, the django path raises `IndexError` (the entry
`"de"` has no `';'`, so its reversed split has no index 1) instead of
producing `["de", "en", "fr"]`. -/
theorem django_spec_header_raises :
    get_django_preferred_locales
        ⟨none, none,
          some [(HTTP_ACCEPT_LANGUAGE, strCodes "fr;q=0.5,en;q=0.9,de")]⟩ =
      .error () := by
  decide

/-- C3: `get_django_preferred_locales` raises on the plain comma-free
header `"de"` — an entry with no quality suffix — so the claimed
never-raises policy fails on the code. -/
theorem django_bare_tag_raises :
    get_django_preferred_locales
        ⟨none, none, some [(HTTP_ACCEPT_LANGUAGE, strCodes "de")]⟩ =
      .error () := by
  decide

/-! ## Claim theorems: negotiation -/

/-- C7: with an empty candidate set, `negotiate_locale` returns `None`
immediately, for every request and every external negotiation algorithm —
in particular without consulting any preference data of the request. -/
theorem negotiate_locale_empty_candidates
    (bn : List Str → List Str → Option Str) (request : Request) :
    negotiate_locale bn request [] = .ok none := rfl

/-! ## Claim theorems: request mutation frame -/

/-- C9: `get_request_locale` and `get_request_timezone` each mutate only
their own attribute (`locale`, respectively `tzinfo`), leave every other
field of the request unchanged, store exactly the value they return, and
return the normalized probed value or the caller default when
normalization yields nothing. -/
theorem get_request_locale_timezone_frame {α : Type u} {L T : Type v}
    (bl : List Str → Option L) (gtz : PyVal L T → Option T)
    (r : ReqState α L T) (dl : Option L) (dt : Option T) :
    ((get_request_locale bl r dl).1.tzinfo = r.tzinfo
      ∧ (get_request_locale bl r dl).1.args = r.args
      ∧ (get_request_locale bl r dl).1.GET = r.GET
      ∧ (get_request_locale bl r dl).1.other = r.other
      ∧ (get_request_locale bl r dl).1.locale =
          ((get_request_locale bl r dl).2).map PyVal.loc
      ∧ (get_request_locale bl r dl).2 =
          (match normalize_locale bl (localeProbe r) with
            | some l => some l
            | none => dl))
    ∧ ((get_request_timezone gtz r dt).1.locale = r.locale
      ∧ (get_request_timezone gtz r dt).1.args = r.args
      ∧ (get_request_timezone gtz r dt).1.GET = r.GET
      ∧ (get_request_timezone gtz r dt).1.other = r.other
      ∧ (get_request_timezone gtz r dt).1.tzinfo =
          ((get_request_timezone gtz r dt).2).map PyVal.tz
      ∧ (get_request_timezone gtz r dt).2 =
          (match normalize_timezone gtz (tzinfoProbe r) with
            | some t => some t
            | none => dt)) :=
  ⟨⟨rfl, rfl, rfl, rfl, rfl, rfl⟩, ⟨rfl, rfl, rfl, rfl, rfl, rfl⟩⟩

/-! ## ASCII character facts -/

/-- A code point of an ASCII letter. -/
def isAlphaC (c : Nat) : Prop := (65 ≤ c ∧ c ≤ 90) ∨ (97 ≤ c ∧ c ≤ 122)

instance (c : Nat) : Decidable (isAlphaC c) := by
  unfold isAlphaC
  infer_instance

theorem lowerC_range {c : Nat} (h : isAlphaC c) :
    97 ≤ lowerC c ∧ lowerC c ≤ 122 := by
  unfold lowerC
  rcases h with ⟨h1, h2⟩ | ⟨h1, h2⟩ <;> split <;> omega

theorem isAlphaC_of_lowerC_eq {c d : Nat} (hd : isAlphaC d)
    (h : lowerC c = lowerC d) : isAlphaC c := by
  unfold lowerC at h
  unfold isAlphaC at *
  split at h <;> split at h <;> omega

theorem upperC_lowerC {c : Nat} (h : isAlphaC c) :
    upperC (lowerC c) = upperC c := by
  by_cases hP : 65 ≤ c ∧ c ≤ 90
  · rw [lowerC, if_pos hP, upperC, if_pos (by omega), upperC, if_neg (by omega)]
    omega
  · rw [lowerC, if_neg hP]

theorem upperC_eq_of_lowerC_eq {c d : Nat} (hd : isAlphaC d)
    (h : lowerC c = lowerC d) : upperC c = upperC d := by
  have hc := isAlphaC_of_lowerC_eq hd h
  calc upperC c = upperC (lowerC c) := (upperC_lowerC hc).symm
    _ = upperC (lowerC d) := by rw [h]
    _ = upperC d := upperC_lowerC hd

/-! ## List-level case-mapping facts -/

theorem alpha_of_pyLower_eq {a l : Str} (hl : ∀ c ∈ l, isAlphaC c)
    (h : pyLower a = pyLower l) : ∀ c ∈ a, isAlphaC c := by
  induction a generalizing l with
  | nil => intro c hc; cases hc
  | cons c a' ih =>
    cases l with
    | nil => simp [pyLower] at h
    | cons d l' =>
      simp only [pyLower, List.map_cons, List.cons.injEq] at h
      intro x hx
      rcases List.mem_cons.mp hx with hx | hx
      · subst hx
        exact isAlphaC_of_lowerC_eq (hl d (by simp)) h.1
      · exact ih (l := l') (fun c hc => hl c (by simp [hc])) h.2 x hx

theorem pyUpper_eq_of_pyLower_eq {b r : Str} (hr : ∀ c ∈ r, isAlphaC c)
    (h : pyLower b = pyLower r) : pyUpper b = pyUpper r := by
  induction b generalizing r with
  | nil =>
    cases r with
    | nil => rfl
    | cons d r' => simp [pyLower] at h
  | cons c b' ih =>
    cases r with
    | nil => simp [pyLower] at h
    | cons d r' =>
      simp only [pyLower, List.map_cons, List.cons.injEq] at h
      simp only [pyUpper, List.map_cons, List.cons.injEq]
      exact ⟨upperC_eq_of_lowerC_eq (hr d (by simp)) h.1,
        ih (r := r') (fun c hc => hr c (by simp [hc])) h.2⟩

theorem pyUpper_pyLower {s : Str} (h : ∀ c ∈ s, isAlphaC c) :
    pyUpper (pyLower s) = pyUpper s := by
  induction s with
  | nil => rfl
  | cons c s' ih =>
    simp only [pyLower, pyUpper, List.map_cons, List.cons.injEq] at ih ⊢
    exact ⟨upperC_lowerC (h c (by simp)), ih (fun x hx => h x (by simp [hx]))⟩

theorem not_mem_pyLower_95 {s : Str} (h : ∀ c ∈ s, isAlphaC c) :
    95 ∉ pyLower s := by
  intro hm
  rcases List.mem_map.mp hm with ⟨c, hc, he⟩
  have := lowerC_range (h c hc)
  omega

theorem pyReplace_alpha {s : Str} (h : ∀ c ∈ s, isAlphaC c) :
    pyReplace 45 95 s = s := by
  induction s with
  | nil => rfl
  | cons c s' ih =>
    have hc45 : c ≠ 45 := by
      rcases h c (by simp) with ⟨h1, _⟩ | ⟨h1, _⟩ <;> omega
    simp only [pyReplace, List.map_cons, List.cons.injEq] at ih ⊢
    exact ⟨by simp [hc45], ih (fun x hx => h x (by simp [hx]))⟩

theorem pyReplace_append (x y : Nat) (s t : Str) :
    pyReplace x y (s ++ t) = pyReplace x y s ++ pyReplace x y t := by
  simp [pyReplace]

theorem pyReplace_cons (x y c : Nat) (s : Str) :
    pyReplace x y (c :: s) = (if c = x then y else c) :: pyReplace x y s := by
  simp [pyReplace]

theorem pyLower_append (s t : Str) :
    pyLower (s ++ t) = pyLower s ++ pyLower t := by
  simp [pyLower]

theorem pyLower_cons (c : Nat) (s : Str) :
    pyLower (c :: s) = lowerC c :: pyLower s := by
  simp [pyLower]

/-! ## Splitting facts -/

theorem pySplit_ne_nil (sep : Nat) (s : Str) : pySplit sep s ≠ [] := by
  cases s with
  | nil => simp [pySplit]
  | cons c rest =>
    rw [pySplit]
    rcases pySplit sep rest with _ | ⟨hd, tl⟩
    · simp
    · show ¬(if c = sep then [] :: hd :: tl else (c :: hd) :: tl) = []
      split <;> simp

theorem pySplit_no_sep {sep : Nat} {s : Str} (h : sep ∉ s) :
    pySplit sep s = [s] := by
  induction s with
  | nil => rfl
  | cons c rest ih =>
    have h1 : sep ≠ c := fun he => h (by simp [he])
    have h2 : sep ∉ rest := fun hm => h (by simp [hm])
    rw [pySplit, ih h2]
    simp [Ne.symm h1]

theorem pySplit_append {sep : Nat} {a : Str} (b : Str) (h : sep ∉ a) :
    pySplit sep (a ++ sep :: b) = a :: pySplit sep b := by
  induction a with
  | nil =>
    simp only [List.nil_append]
    rcases hb : pySplit sep b with _ | ⟨hd, tl⟩
    · exact absurd hb (pySplit_ne_nil sep b)
    · rw [pySplit, hb]
      simp
  | cons c a' ih =>
    have h1 : sep ≠ c := fun he => h (by simp [he])
    have h2 : sep ∉ a' := fun hm => h (by simp [hm])
    rw [List.cons_append, pySplit, ih h2]
    simp [Ne.symm h1]

/-! ## Claim theorem: canonical locale splitting (C8) -/

/-- C8: for a valid `(language, REGION)` pair of ASCII letters, splitting
any string form of it — either `-` or `_` as separator and arbitrary casing
of either segment — yields the same canonical tag: lower-cased language,
upper-cased region. -/
theorem split_locale_canonical (lang region a b : Str) (sep : Nat)
    (hsep : sep = 45 ∨ sep = 95)
    (hlang : ∀ c ∈ lang, isAlphaC c) (hregion : ∀ c ∈ region, isAlphaC c)
    (hlne : lang ≠ []) (hrne : region ≠ [])
    (ha : pyLower a = pyLower lang) (hb : pyLower b = pyLower region) :
    split_locale_str (a ++ sep :: b) = [pyLower lang, pyUpper region] := by
  have haA : ∀ c ∈ a, isAlphaC c := alpha_of_pyLower_eq hlang ha
  have hbA : ∀ c ∈ b, isAlphaC c := alpha_of_pyLower_eq hregion hb
  have hsep95 : (if sep = 45 then 95 else sep) = 95 := by
    rcases hsep with h | h <;> subst h <;> simp
  have l95 : lowerC 95 = 95 := by decide
  simp only [split_locale_str]
  rw [pyReplace_append, pyReplace_cons, pyReplace_alpha haA,
    pyReplace_alpha hbA, hsep95, pyLower_append, pyLower_cons, l95,
    pySplit_append _ (not_mem_pyLower_95 haA),
    pySplit_no_sep (not_mem_pyLower_95 hbA)]
  simp only [upLastStr]
  rw [ha, hb, pyUpper_pyLower hregion]

/-- C8 (witness): `"En-uS"` splits to the canonical `("en", "US")`. -/
theorem split_locale_canonical_witness :
    split_locale_str (strCodes "En" ++ 45 :: strCodes "uS") =
      [pyLower (strCodes "en"), pyUpper (strCodes "US")] :=
  split_locale_canonical (strCodes "en") (strCodes "US") (strCodes "En")
    (strCodes "uS") 45 (Or.inl rfl) (by decide) (by decide) (by decide)
    (by decide) (by decide) (by decide)

/-! ## Plain tags and quality strings -/

/-- A plain tag: a non-empty string of lowercase ASCII letters (such tags
are left unchanged by stripping and by locale normalization). -/
def isPlainTag (t : Str) : Prop := t ≠ [] ∧ ∀ c ∈ t, 97 ≤ c ∧ c ≤ 122

/-- A well-behaved quality component: no comma, no semicolon, and no
whitespace, so that entry splitting and stripping leave it alone. -/
def isPlainQ (q : Str) : Prop := ∀ c ∈ q, c ≠ 44 ∧ c ≠ 59 ∧ isSpaceC c = false

instance (t : Str) : Decidable (isPlainTag t) := by
  unfold isPlainTag
  infer_instance

instance (q : Str) : Decidable (isPlainQ q) := by
  unfold isPlainQ
  infer_instance

theorem isSpaceC_false_of_ge {c : Nat} (h : 33 ≤ c) : isSpaceC c = false := by
  simp [isSpaceC]
  omega

theorem dropWhile_no_space {s : Str} (h : ∀ c ∈ s, isSpaceC c = false) :
    s.dropWhile isSpaceC = s := by
  cases s with
  | nil => rfl
  | cons c rest =>
    rw [List.dropWhile_cons]
    simp [h c (by simp)]

theorem pyStrip_no_space {s : Str} (h : ∀ c ∈ s, isSpaceC c = false) :
    pyStrip s = s := by
  unfold pyStrip
  rw [dropWhile_no_space h,
    dropWhile_no_space (fun c hc => h c (by simpa using hc)),
    List.reverse_reverse]

theorem pyLower_plain {t : Str} (h : ∀ c ∈ t, 97 ≤ c ∧ c ≤ 122) :
    pyLower t = t := by
  induction t with
  | nil => rfl
  | cons c s ih =>
    have hc := h c (by simp)
    simp only [pyLower, List.map_cons, List.cons.injEq] at ih ⊢
    refine ⟨?_, ih fun x hx => h x (by simp [hx])⟩
    rw [lowerC, if_neg (by omega)]

theorem not_mem_plain {t : Str} {x : Nat} (hx : x < 97)
    (h : ∀ c ∈ t, 97 ≤ c ∧ c ≤ 122) : x ∉ t := by
  intro hm
  have := h x hm
  omega

/-- Stripping, splitting and locale-normalizing a plain tag is the
identity. -/
theorem joinSplitLocale_plain {t : Str} (h : ∀ c ∈ t, 97 ≤ c ∧ c ≤ 122) :
    joinSplitLocale t = t := by
  rw [joinSplitLocale]
  simp only [split_locale_str]
  rw [pyReplace_alpha (fun c hc => Or.inr (h c hc)), pyLower_plain h,
    pySplit_no_sep (not_mem_plain (by omega) h)]
  rfl

/-! ## The sort on two entries -/

theorem strLtB_irrefl (s : Str) : strLtB s s = false := by
  induction s with
  | nil => rfl
  | cons c r ih => simp [strLtB, ih]

theorem insSort_pair {α : Type u} (le : α → α → Bool) (x y : α) :
    insSort le [x, y] = if le x y then [x, y] else [y, x] := by
  simp [insSort, insertLe]

/-! ## Two-entry headers through the django parser -/

/-- Reduction of `get_django_preferred_locales` to its parsing pipeline,
for a `META` dict holding exactly the header under the standard key. -/
theorem django_pipeline (header : Str) (hne : header ≠ []) :
    get_django_preferred_locales ⟨none, none,
        some [(HTTP_ACCEPT_LANGUAGE, header)]⟩ =
      (djangoMapEntries ((insSort entryLeB
        ((pySplit 44 header).map fun l =>
          (pySplit 59 (pyStrip l)).reverse)).reverse)).map some := by
  simp only [get_django_preferred_locales]
  rw [if_neg (by simp)]
  simp [dlookup, hne]

/-- What the django parser does to a header of exactly two well-behaved
`tag;quality` entries: the two reversed pairs are compared
lexicographically and the tags are emitted in descending pair order. -/
theorem django_two_entries (t1 q1 t2 q2 : Str)
    (ht1 : isPlainTag t1) (ht2 : isPlainTag t2)
    (hq1 : isPlainQ q1) (hq2 : isPlainQ q2) :
    get_django_preferred_locales ⟨none, none,
        some [(HTTP_ACCEPT_LANGUAGE,
          (t1 ++ 59 :: q1) ++ 44 :: (t2 ++ 59 :: q2))]⟩ =
      .ok (some (if entryLtB [q2, t2] [q1, t1] then [t1, t2]
        else [t2, t1])) := by
  obtain ⟨hne1, h1⟩ := ht1
  obtain ⟨hne2, h2⟩ := ht2
  have hsp : ∀ (t q : Str), (∀ c ∈ t, 97 ≤ c ∧ c ≤ 122) → isPlainQ q →
      ∀ c ∈ t ++ 59 :: q, isSpaceC c = false := by
    intro t q ht hq c hc
    rcases List.mem_append.mp hc with hc | hc
    · exact isSpaceC_false_of_ge (by have := ht c hc; omega)
    · rcases List.mem_cons.mp hc with rfl | hc
      · decide
      · exact (hq c hc).2.2
  have h44 : ∀ (t q : Str), (∀ c ∈ t, 97 ≤ c ∧ c ≤ 122) → isPlainQ q →
      (44 : Nat) ∉ t ++ 59 :: q := by
    intro t q ht hq hm
    rcases List.mem_append.mp hm with hm | hm
    · have := ht _ hm; omega
    · rcases List.mem_cons.mp hm with he | hm
      · exact absurd he (by decide)
      · exact (hq _ hm).1 rfl
  have h59q1 : (59 : Nat) ∉ q1 := fun hm => (hq1 _ hm).2.1 rfl
  have h59q2 : (59 : Nat) ∉ q2 := fun hm => (hq2 _ hm).2.1 rfl
  rw [django_pipeline _ (by simp)]
  rw [pySplit_append _ (h44 t1 q1 h1 hq1), pySplit_no_sep (h44 t2 q2 h2 hq2)]
  simp only [List.map_cons, List.map_nil]
  rw [pyStrip_no_space (hsp t1 q1 h1 hq1), pyStrip_no_space (hsp t2 q2 h2 hq2)]
  rw [pySplit_append q1 (not_mem_plain (by omega) h1),
    pySplit_no_sep h59q1,
    pySplit_append q2 (not_mem_plain (by omega) h2),
    pySplit_no_sep h59q2]
  simp only [List.reverse_cons, List.reverse_nil, List.nil_append,
    List.cons_append]
  rw [insSort_pair]
  have hst1 : pyStrip t1 = t1 :=
    pyStrip_no_space fun c hc => isSpaceC_false_of_ge (by have := h1 c hc; omega)
  have hst2 : pyStrip t2 = t2 :=
    pyStrip_no_space fun c hc => isSpaceC_false_of_ge (by have := h2 c hc; omega)
  cases hb : entryLtB [q2, t2] [q1, t1] with
  | false =>
    simp only [entryLeB, hb, Bool.not_false, if_true]
    simp [djangoMapEntries, hst1, hst2, joinSplitLocale_plain h1,
      joinSplitLocale_plain h2, Except.map]
  | true =>
    simp only [entryLeB, hb, Bool.not_true, if_false]
    simp [djangoMapEntries, hst1, hst2, joinSplitLocale_plain h1,
      joinSplitLocale_plain h2, Except.map]

/-! ## Claim theorems: quality sorting (C4, C5) -/

/-- C4 (counterexample): header `"en;q=0.5,fr;q=0.5"` has two entries of
equal quality in the order `en`, `fr`, but the parser returns
`["fr", "en"]` — the original relative order is not preserved. -/
theorem django_equal_quality_order_cex :
    get_django_preferred_locales ⟨none, none,
        some [(HTTP_ACCEPT_LANGUAGE, strCodes "en;q=0.5,fr;q=0.5")]⟩ =
        .ok (some [strCodes "fr", strCodes "en"])
      ∧ [strCodes "fr", strCodes "en"] ≠ [strCodes "en", strCodes "fr"] := by
  constructor
  · decide
  · decide

/-- C4 (amended): among two entries of equal quality the output order is
descending code-point order of the tag texts (the `sorted(...)` on the
reversed `[quality, tag]` pairs falls through to the tag), not the input
order; quality values are discarded after sorting. -/
theorem django_equal_quality_desc_tag (q t1 t2 : Str)
    (ht1 : isPlainTag t1) (ht2 : isPlainTag t2) (hq : isPlainQ q) :
    get_django_preferred_locales ⟨none, none,
        some [(HTTP_ACCEPT_LANGUAGE,
          (t1 ++ 59 :: q) ++ 44 :: (t2 ++ 59 :: q))]⟩ =
      .ok (some (if strLtB t2 t1 then [t1, t2] else [t2, t1])) := by
  rw [django_two_entries t1 q t2 q ht1 ht2 hq hq]
  have hcond : entryLtB [q, t2] [q, t1] = strLtB t2 t1 := by
    simp [entryLtB, strLtB_irrefl]
  rw [hcond]

/-- C4 (witness): equal-quality tags `en` and `fr` come out as
`["fr", "en"]` regardless of their input order. -/
theorem django_equal_quality_desc_tag_witness :
    get_django_preferred_locales ⟨none, none,
        some [(HTTP_ACCEPT_LANGUAGE,
          (strCodes "en" ++ 59 :: strCodes "q=0.5") ++
            44 :: (strCodes "fr" ++ 59 :: strCodes "q=0.5"))]⟩ =
      .ok (some (if strLtB (strCodes "fr") (strCodes "en")
        then [strCodes "en", strCodes "fr"]
        else [strCodes "fr", strCodes "en"])) :=
  django_equal_quality_desc_tag (strCodes "q=0.5") (strCodes "en")
    (strCodes "fr") (by decide) (by decide) (by decide)

/-- C5 (counterexample): in `"zz;q=1.0,aa;q=bogus"` the malformed-quality
entry `aa` is ranked strictly above the quality-1.0 entry `zz` (string
comparison puts `"q=bogus"` above `"q=1.0"`), so it is not treated as
quality 1.0, which would leave `zz` first under either tie-break. -/
theorem django_bogus_quality_rank_cex :
    get_django_preferred_locales ⟨none, none,
        some [(HTTP_ACCEPT_LANGUAGE, strCodes "zz;q=1.0,aa;q=bogus")]⟩ =
        .ok (some [strCodes "aa", strCodes "zz"])
      ∧ [strCodes "aa", strCodes "zz"] ≠ [strCodes "zz", strCodes "aa"] := by
  constructor
  · decide
  · decide

/-- C5 (amended): a malformed quality suffix does not raise; the entry is
ranked by raw code-point comparison of its quality string, which places
`"q=bogus"` strictly above every entry with quality `"q=1.0"`, whatever
the tags. -/
theorem django_bogus_above_numeric (t1 t2 : Str)
    (ht1 : isPlainTag t1) (ht2 : isPlainTag t2) :
    get_django_preferred_locales ⟨none, none,
        some [(HTTP_ACCEPT_LANGUAGE,
          (t1 ++ 59 :: strCodes "q=1.0") ++
            44 :: (t2 ++ 59 :: strCodes "q=bogus"))]⟩ =
      .ok (some [t2, t1]) := by
  rw [django_two_entries t1 (strCodes "q=1.0") t2 (strCodes "q=bogus")
    ht1 ht2 (by decide) (by decide)]
  have hcond : entryLtB [strCodes "q=bogus", t2] [strCodes "q=1.0", t1] =
      false := by
    have hlt : strLtB (strCodes "q=bogus") (strCodes "q=1.0") = false := by
      decide
    have hne : strCodes "q=bogus" ≠ strCodes "q=1.0" := by decide
    simp [entryLtB, hlt, hne]
  rw [hcond]
  rfl

/-- C5 (witness): the malformed-quality entry outranks the quality-1.0
entry at concrete tags. -/
theorem django_bogus_above_numeric_witness :
    get_django_preferred_locales ⟨none, none,
        some [(HTTP_ACCEPT_LANGUAGE,
          (strCodes "zz" ++ 59 :: strCodes "q=1.0") ++
            44 :: (strCodes "aa" ++ 59 :: strCodes "q=bogus"))]⟩ =
      .ok (some [strCodes "aa", strCodes "zz"]) :=
  django_bogus_above_numeric (strCodes "zz") (strCodes "aa")
    (by decide) (by decide)

/-! ## Claim theorems: extraction chain (C10) -/

/-- Every framework accessor of the request is absent or empty: no
werkzeug values, no webob values, and no usable django header. -/
def allAccessorsEmpty (r : Request) : Prop :=
  (r.accept_languages = none ∨ r.accept_languages = some [])
  ∧ (r.accept_language = none ∨ r.accept_language = some [])
  ∧ (r.META = none ∨ r.META = some []
      ∨ dlookup HTTP_ACCEPT_LANGUAGE (r.META.getD []) = none
      ∨ dlookup HTTP_ACCEPT_LANGUAGE (r.META.getD []) = some [])

instance (r : Request) : Decidable (allAccessorsEmpty r) := by
  unfold allAccessorsEmpty
  infer_instance

/-- C10 (counterexample): with no werkzeug/webob accessor and the django
header `"de"`, no probe yields a list — yet `get_preferred_locales`
propagates the django `IndexError` instead of returning the empty list. -/
theorem get_preferred_locales_django_raise_cex :
    get_preferred_locales ⟨none, none,
        some [(HTTP_ACCEPT_LANGUAGE, strCodes "de")]⟩ = .error () := by
  decide

/-- C10 (amended): a present-but-empty accessor behaves exactly like an
absent one at each of the three probes, and when every accessor is absent
or empty the result is the empty list (never `None`); the never-raise part
of the claim fails only through the django `IndexError` bug. -/
theorem get_preferred_locales_empty_like_absent (r : Request) :
    (get_preferred_locales { r with accept_languages := some [] } =
        get_preferred_locales { r with accept_languages := none })
    ∧ (get_preferred_locales { r with accept_language := some [] } =
        get_preferred_locales { r with accept_language := none })
    ∧ (get_preferred_locales { r with META := some [] } =
        get_preferred_locales { r with META := none })
    ∧ (allAccessorsEmpty r → get_preferred_locales r = .ok []) := by
  refine ⟨rfl, rfl, rfl, ?_⟩
  rintro ⟨hw, ho, hm⟩
  have hwz : get_werkzeug_preferred_locales r = none := by
    rcases hw with hw | hw <;> simp [get_werkzeug_preferred_locales, hw]
  have hwo : get_webob_preferred_locales r = none := by
    rcases ho with ho | ho <;> simp [get_webob_preferred_locales, ho]
  have hdj : get_django_preferred_locales r = .ok none := by
    rcases hmeta : r.META with _ | m
    · simp [get_django_preferred_locales, hmeta]
    · rw [hmeta] at hm
      by_cases hm0 : m = []
      · simp [get_django_preferred_locales, hmeta, hm0]
      · rcases hm with hm | hm | hm | hm
        · exact absurd hm (by simp)
        · exact absurd (Option.some.inj hm) hm0
        · simp only [Option.getD_some] at hm
          simp [get_django_preferred_locales, hmeta, hm0, hm]
        · simp only [Option.getD_some] at hm
          simp [get_django_preferred_locales, hmeta, hm0, hm]
  simp [get_preferred_locales, hwz, hwo, hdj, truthyL]

/-- C10 (witness): a request whose accessors are all present but empty
yields the empty list. -/
theorem get_preferred_locales_empty_like_absent_witness :
    get_preferred_locales ⟨some [], some [], some []⟩ = .ok [] :=
  (get_preferred_locales_empty_like_absent
    ⟨some [], some [], some []⟩).2.2.2 (by decide)
